import Mathlib

/-!
Shallow embedding of the data-table widget in `src/Table.tsx` (and the demo
schema in `src/App.tsx`), together with proofs about its sorting, pagination,
column-partitioning and event-handling behaviour.

Modelling conventions:
* rows are an abstract type `α`; field access `row[columnKey]` is an explicit
  function `get : α → String → β` into a linearly ordered value type `β`
  (the widget compares field values with `===`/`<`);
* JavaScript array primitives are modelled on `List`: `Array.prototype.sort`
  with a comparator is a stable comparison sort (`List.mergeSort`) ordered by
  `comparator a b ≤ 0`, and `Array.prototype.slice start stop` is
  `take (stop - start) ∘ drop start`;
* JavaScript numbers that hold exact small integers are `ℕ`/`ℤ`, and the one
  real-division-then-`Math.ceil` expression is modelled exactly on `ℚ`;
* a falsy `pageSize` is `0 : ℕ`, matching every `pageSize ? _ : _` test.
-/

/-- The `"asc" | "desc"` union used by `SortState` and the props. -/
inductive Direction where
  | asc
  | desc
deriving DecidableEq

/-- `interface SortState { columnKey: string; direction: "asc" | "desc" }`
(Table.tsx lines 26-29). An empty `columnKey` is the falsy string, meaning
no sort is applied. -/
structure SortState where
  columnKey : String
  direction : Direction
deriving DecidableEq

/-- The `"left" | "right"` union of the `fixed` column option. -/
inductive FixedSide where
  | left
  | right
deriving DecidableEq

/-- `TableColumn<T>` (Table.tsx lines 17-24). The optional
`render?: (value, row) → ReactNode` presentational callback is not carried in
the embedded record: no verified property inspects produced markup, and the
decidable equality of the record stands in for the JavaScript reference
equality used by `Array.prototype.includes` in the column partitioning. -/
structure TableColumn where
  key : String
  title : String
  sortable : Bool
  fixed : Option FixedSide
  width : Option Nat
deriving DecidableEq

/-- The two `useState` cells owned by one widget instance
(Table.tsx lines 42-46). -/
structure WidgetState where
  currentPage : Nat
  sortState : SortState
deriving DecidableEq

/-- The comparator closure passed to `.sort` (Table.tsx lines 65-79):
`if (!columnKey) return 0; ... if (aValue === bValue) return 0;
const sortOrder = direction === "asc" ? 1 : -1;
return sortOrder * (aValue < bValue ? -1 : 1);`. -/
def rowCompare {α β : Type} [LinearOrder β] (get : α → String → β)
    (s : SortState) (a b : α) : ℤ :=
  if s.columnKey = "" then 0
  else
    let aValue := get a s.columnKey
    let bValue := get b s.columnKey
    if aValue = bValue then 0
    else
      let sortOrder : ℤ := if s.direction = Direction.asc then 1 else -1
      sortOrder * (if aValue < bValue then -1 else 1)

/-- The non-strict order induced by the comparator: element `a` may be placed
before `b` exactly when `rowCompare a b ≤ 0`. -/
def sortLe {α β : Type} [LinearOrder β] (get : α → String → β)
    (s : SortState) (a b : α) : Bool :=
  decide (rowCompare get s a b ≤ 0)

/-- `const sortedData = [...data].sort((a, b) => ...)` (Table.tsx line 65):
a sorted-by-the-comparator reordering of the full row set, modelled with a
stable comparison sort as guaranteed by `Array.prototype.sort`. -/
def sortedData {α β : Type} [LinearOrder β] (get : α → String → β)
    (s : SortState) (data : List α) : List α :=
  data.mergeSort (sortLe get s)

/-- `const totalPages = pageSize ? Math.ceil(data.length / pageSize) : 1`
(Table.tsx line 63). The division is exact rational division followed by
`Math.ceil`. -/
def totalPages (pageSize rowCount : ℕ) : ℕ :=
  if pageSize ≠ 0 then (⌈(rowCount : ℚ) / (pageSize : ℚ)⌉).toNat else 1

/-- `const startRowIndex = pageSize ? (currentPage - 1) * pageSize : 0`
(Table.tsx line 81). -/
def startRowIndex (pageSize currentPage : ℕ) : ℕ :=
  if pageSize ≠ 0 then (currentPage - 1) * pageSize else 0

/-- `const endRowIndex = pageSize ? startRowIndex + pageSize : data.length`
(Table.tsx line 82). -/
def endRowIndex (pageSize currentPage rowCount : ℕ) : ℕ :=
  if pageSize ≠ 0 then startRowIndex pageSize currentPage + pageSize else rowCount

/-- `Array.prototype.slice(start, stop)`: the elements at indices
`start, ..., stop - 1`, clamped to the array bounds. -/
def jsSlice {α : Type} (start stop : ℕ) (l : List α) : List α :=
  (l.drop start).take (stop - start)

/-- `const visibleData = sortedData.slice(startRowIndex, endRowIndex)`
(Table.tsx line 84). -/
def visibleData {α β : Type} [LinearOrder β] (get : α → String → β)
    (s : SortState) (pageSize currentPage : ℕ) (data : List α) : List α :=
  jsSlice (startRowIndex pageSize currentPage)
    (endRowIndex pageSize currentPage data.length)
    (sortedData get s data)

/-- `columns.filter((column) => column.fixed === "left")` (Table.tsx line 86). -/
def fixedLeftColumns (columns : List TableColumn) : List TableColumn :=
  columns.filter (fun column => column.fixed == some FixedSide.left)

/-- `columns.filter((column) => column.fixed === "right").reverse()`
(Table.tsx line 87). -/
def fixedRightColumns (columns : List TableColumn) : List TableColumn :=
  (columns.filter (fun column => column.fixed == some FixedSide.right)).reverse

/-- `columns.filter(column => !fixedLeftColumns.includes(column) &&
!fixedRightColumns.includes(column))` (Table.tsx line 88). -/
def nofixedColumns (columns : List TableColumn) : List TableColumn :=
  columns.filter (fun column =>
    !((fixedLeftColumns columns).contains column) &&
    !((fixedRightColumns columns).contains column))

/-- The `onClick` handler of a sortable header cell (Table.tsx lines 120-126):
`setSortState({ columnKey: column.key, direction: sortState.direction === "asc"
? "desc" : "asc" }); setCurrentPage(1);`. -/
def headerSortClick (state : WidgetState) (column : TableColumn) : WidgetState :=
  { currentPage := 1
    sortState :=
      { columnKey := column.key
        direction :=
          if state.sortState.direction = Direction.asc then Direction.desc
          else Direction.asc } }

/-- The direction opposite to a given sort direction. -/
def oppositeDirection : Direction → Direction
  | Direction.asc => Direction.desc
  | Direction.desc => Direction.asc

/-- The `onClick` handler of the pagination button carrying index `pageNumber`
(Table.tsx line 267): `setCurrentPage(pageNumber + 1)`; the button's label is
`pageNumber + 1`. -/
def pageButtonClick (state : WidgetState) (pageNumber : ℕ) : WidgetState :=
  { state with currentPage := pageNumber + 1 }

/-- The value shown in one body cell (Table.tsx line 181): the raw field value
`row[column.key]` (the optional custom `render` wrapper is presentational and
not carried by the embedding). -/
def renderedCellValue {α β : Type} (get : α → String → β)
    (column : TableColumn) (row : α) : β :=
  get row column.key

/-- The `tableBody` element (Table.tsx lines 221-250): one row per visible
record, whose cells are the left-fixed, unfixed and right-fixed column groups
in that order. -/
def tableBody {α β : Type} [LinearOrder β] (get : α → String → β)
    (s : SortState) (columns : List TableColumn)
    (pageSize currentPage : ℕ) (data : List α) : List (List β) :=
  (visibleData get s pageSize currentPage data).map (fun row =>
    (fixedLeftColumns columns).map (fun column => renderedCellValue get column row) ++
    ((nofixedColumns columns).map (fun column => renderedCellValue get column row) ++
      (fixedRightColumns columns).map (fun column => renderedCellValue get column row)))

/-- Store-passing model of the effect of `const sortedData = [...data].sort(...)`
(Table.tsx line 65) on the caller's `data` array: the spread `[...data]` copies
the array contents into a fresh array, `.sort` then mutates only that fresh
array in place and returns it. The pair is (value of the expression, contents
of the caller's array after evaluation). -/
def sortedDataEffect {α β : Type} [LinearOrder β] (get : α → String → β)
    (s : SortState) (data : List α) : List α × List α :=
  let copy := data
  (copy.mergeSort (sortLe get s), data)

/-- A concrete field accessor used to instantiate the generic theorems:
rows are integers and every column key reads the row itself. -/
def exGet : ℤ → String → ℤ := fun value _ => value

/-- The demo column schema of `src/App.tsx` lines 20-33 (each descriptor's
`key`, `title`, `sortable`, `fixed` and `width`). -/
def exColumns : List TableColumn :=
  [{ key := "id", title := "ID", sortable := false, fixed := some FixedSide.left, width := some 100 },
   { key := "name", title := "Name", sortable := false, fixed := some FixedSide.left, width := some 100 },
   { key := "age", title := "Age", sortable := true, fixed := none, width := none },
   { key := "name", title := "Column1", sortable := false, fixed := none, width := none },
   { key := "name", title := "Column 2", sortable := false, fixed := none, width := none },
   { key := "name", title := "Column 3", sortable := false, fixed := none, width := none },
   { key := "name", title := "Column 4", sortable := false, fixed := none, width := none },
   { key := "name", title := "Column 5", sortable := false, fixed := none, width := none },
   { key := "name", title := "Column 6", sortable := false, fixed := none, width := none },
   { key := "name", title := "Column 7", sortable := false, fixed := none, width := none },
   { key := "name", title := "Column 8", sortable := false, fixed := none, width := some 100 },
   { key := "gender", title := "Gender", sortable := false, fixed := some FixedSide.right, width := some 100 }]

/-! ## Arithmetic helpers for `totalPages` -/

/-- `Math.ceil` of the exact rational `rowCount / pageSize` is ceiling
division of naturals. -/
theorem ceil_ratCast_div_eq (ps rc : ℕ) (hps : ps ≠ 0) :
    (⌈(rc : ℚ) / (ps : ℚ)⌉).toNat = (rc + ps - 1) / ps := by
  have hpos : 0 < ps := Nat.pos_of_ne_zero hps
  have hup : rc + ps - 1 < ((rc + ps - 1) / ps + 1) * ps :=
    (Nat.div_lt_iff_lt_mul hpos).mp (Nat.lt_succ_self _)
  have hlow : (rc + ps - 1) / ps * ps ≤ rc + ps - 1 := Nat.div_mul_le_self _ _
  have hx : ((rc + ps - 1) / ps + 1) * ps = (rc + ps - 1) / ps * ps + ps := by ring
  have h1 : rc ≤ (rc + ps - 1) / ps * ps := by omega
  have h2 : (rc + ps - 1) / ps * ps < rc + ps := by omega
  have hceil : ⌈(rc : ℚ) / (ps : ℚ)⌉ = ((rc + ps - 1) / ps : ℕ) := by
    rw [Int.ceil_eq_iff]
    have hpq : (0 : ℚ) < (ps : ℚ) := by exact_mod_cast hpos
    constructor
    · rw [lt_div_iff₀ hpq]
      have hc : (((rc + ps - 1) / ps : ℕ) : ℚ) * (ps : ℚ) < (rc : ℚ) + (ps : ℚ) := by
        exact_mod_cast h2
      have hr : ((((rc + ps - 1) / ps : ℕ) : ℚ) - 1) * (ps : ℚ)
          = (((rc + ps - 1) / ps : ℕ) : ℚ) * (ps : ℚ) - (ps : ℚ) := by ring
      rw [Int.cast_natCast, hr]
      linarith
    · rw [div_le_iff₀ hpq]
      rw [Int.cast_natCast]
      exact_mod_cast h1
  rw [hceil]
  exact Int.toNat_natCast _

/-- For a truthy page size, `totalPages` is the ceiling division
`(rowCount + pageSize - 1) / pageSize`. -/
theorem totalPages_eq_ceilDiv (pageSize rowCount : ℕ) (hps : pageSize ≠ 0) :
    totalPages pageSize rowCount = (rowCount + pageSize - 1) / pageSize := by
  unfold totalPages
  rw [if_pos hps]
  exact ceil_ratCast_div_eq pageSize rowCount hps

/-- All rows fit in `totalPages` pages. -/
theorem le_totalPages_mul (pageSize rowCount : ℕ) (hps : pageSize ≠ 0) :
    rowCount ≤ totalPages pageSize rowCount * pageSize := by
  rw [totalPages_eq_ceilDiv pageSize rowCount hps]
  have hpos : 0 < pageSize := Nat.pos_of_ne_zero hps
  have hup : rowCount + pageSize - 1
      < ((rowCount + pageSize - 1) / pageSize + 1) * pageSize :=
    (Nat.div_lt_iff_lt_mul hpos).mp (Nat.lt_succ_self _)
  have hx : ((rowCount + pageSize - 1) / pageSize + 1) * pageSize
      = (rowCount + pageSize - 1) / pageSize * pageSize + pageSize := by ring
  omega

/-- The sorted row set has as many rows as the input. -/
theorem sortedData_length {α β : Type} [LinearOrder β] (get : α → String → β)
    (s : SortState) (data : List α) :
    (sortedData get s data).length = data.length :=
  List.length_mergeSort data

/-! ## C1: totalPages -/

/-- C1 counterexample: with positive `pageSize = 10` and `rowCount = 0` the
code yields `totalPages = 0`, not the claimed minimum of 1. -/
theorem totalPages_zero_rows_ne_one :
    totalPages 10 0 = 0 ∧ totalPages 10 0 ≠ 1 := by
  have h : totalPages 10 0 = 0 := by
    rw [totalPages_eq_ceilDiv 10 0 (by decide)]
  exact ⟨h, by rw [h]; decide⟩

/-- C1 (amended): for positive `pageSize`, `totalPages` is exactly
`ceil(rowCount / pageSize)` with no minimum clamp — in particular it is 0 when
`rowCount = 0` and at least 1 when `rowCount ≥ 1`; `totalPages = 1` when
pagination is disabled (falsy `pageSize`). -/
theorem totalPages_spec_amended (pageSize rowCount : ℕ) :
    totalPages 0 rowCount = 1 ∧
    (pageSize ≠ 0 →
      totalPages pageSize rowCount = (rowCount + pageSize - 1) / pageSize) ∧
    (pageSize ≠ 0 → rowCount = 0 → totalPages pageSize rowCount = 0) ∧
    (pageSize ≠ 0 → rowCount ≠ 0 → 1 ≤ totalPages pageSize rowCount) := by
  refine ⟨by unfold totalPages; simp, fun h => totalPages_eq_ceilDiv _ _ h, ?_, ?_⟩
  · intro h h0
    subst h0
    rw [totalPages_eq_ceilDiv _ _ h]
    exact Nat.div_eq_of_lt (by omega)
  · intro h h0
    rw [totalPages_eq_ceilDiv _ _ h]
    rw [Nat.le_div_iff_mul_le (Nat.pos_of_ne_zero h)]
    omega

/-- C1 witness: `totalPages` at `pageSize = 3`, `rowCount = 7` is 3 and ≥ 1. -/
theorem totalPages_spec_amended_witness :
    totalPages 3 7 = 3 ∧ 1 ≤ totalPages 3 7 :=
  ⟨((totalPages_spec_amended 3 7).2.1 (by decide)).trans (by decide),
   (totalPages_spec_amended 3 7).2.2.2 (by decide) (by decide)⟩

/-! ## C2: sortable-header click -/

/-- C2: clicking a sortable column's header sets the active sort column to the
clicked column's key, flips the direction held in sort state (whatever column
was previously active), and resets the current page to 1. -/
theorem headerSortClick_spec (state : WidgetState) (column : TableColumn) :
    (headerSortClick state column).sortState.columnKey = column.key ∧
    (headerSortClick state column).sortState.direction
      = oppositeDirection state.sortState.direction ∧
    (headerSortClick state column).currentPage = 1 := by
  refine ⟨rfl, ?_, rfl⟩
  cases h : state.sortState.direction <;>
    simp [headerSortClick, oppositeDirection, h]

/-! ## C7: the visible slice -/

/-- C7: with paging enabled the rendered rows are the contiguous slice of the
sorted rows from `(currentPage - 1) * pageSize`, of length `pageSize`; with
paging disabled they are the whole sorted row set. -/
theorem visibleData_slice_spec {α β : Type} [LinearOrder β] (get : α → String → β)
    (s : SortState) (pageSize currentPage : ℕ) (data : List α) :
    (pageSize ≠ 0 → visibleData get s pageSize currentPage data
      = ((sortedData get s data).drop ((currentPage - 1) * pageSize)).take pageSize) ∧
    (pageSize = 0 → visibleData get s pageSize currentPage data
      = sortedData get s data) := by
  constructor
  · intro hps
    unfold visibleData jsSlice endRowIndex startRowIndex
    rw [if_pos hps, if_pos hps, Nat.add_sub_cancel_left]
  · intro hps
    subst hps
    unfold visibleData jsSlice endRowIndex startRowIndex
    rw [if_neg (by simp), if_neg (by simp), List.drop_zero, Nat.sub_zero,
      ← sortedData_length get s data, List.take_length]

/-- C7 witness at `pageSize = 2`, `currentPage = 2` on a three-row list. -/
theorem visibleData_slice_spec_witness :
    visibleData exGet { columnKey := "", direction := Direction.asc } 2 2 [5, 1, 4]
      = ((sortedData exGet { columnKey := "", direction := Direction.asc }
          ([5, 1, 4] : List ℤ)).drop ((2 - 1) * 2)).take 2 :=
  (visibleData_slice_spec exGet _ 2 2 [5, 1, 4]).1 (by decide)

/-! ## C8: the input array is not mutated -/

/-- C8: computing the sorted data leaves the caller's `data` array with its
original order and contents — the spread copies it and `.sort` mutates only
the copy; the expression's value is the sorted permutation of the rows. -/
theorem sortedData_no_mutation {α β : Type} [LinearOrder β] (get : α → String → β)
    (s : SortState) (data : List α) :
    (sortedDataEffect get s data).2 = data ∧
    (sortedDataEffect get s data).1 = sortedData get s data ∧
    (sortedDataEffect get s data).1.Perm data :=
  ⟨rfl, rfl, List.mergeSort_perm data _⟩

/-! ## C10: page-button click -/

/-- C10: clicking the pagination button with index `pageNumber` (displayed as
page `pageNumber + 1`) sets `currentPage` to that displayed page number and
changes nothing else; clicking the button of the already-active page leaves
the state unchanged. -/
theorem pageButtonClick_spec (state : WidgetState) (pageNumber : ℕ) :
    (pageButtonClick state pageNumber).currentPage = pageNumber + 1 ∧
    (pageButtonClick state pageNumber).sortState = state.sortState ∧
    (state.currentPage = pageNumber + 1 → pageButtonClick state pageNumber = state) := by
  refine ⟨rfl, rfl, fun h => ?_⟩
  cases state
  simp only [pageButtonClick]
  simp_all

/-- C10 witness: clicking the active page's button (page 2, index 1) is a
no-op on the state. -/
theorem pageButtonClick_spec_witness :
    pageButtonClick
        { currentPage := 2
          sortState := { columnKey := "age", direction := Direction.asc } } 1
      = { currentPage := 2
          sortState := { columnKey := "age", direction := Direction.asc } } :=
  (pageButtonClick_spec _ 1).2.2 rfl

/-! ## The order induced by the comparator -/

/-- With a non-empty sort column, `sortLe` is comparison of the named field,
in the direction held by the sort state. -/
theorem sortLe_true_iff {α β : Type} [LinearOrder β] (get : α → String → β)
    (s : SortState) (hk : s.columnKey ≠ "") (a b : α) :
    sortLe get s a b = true ↔
      (if s.direction = Direction.asc then get a s.columnKey ≤ get b s.columnKey
       else get b s.columnKey ≤ get a s.columnKey) := by
  unfold sortLe rowCompare
  simp only [decide_eq_true_eq, if_neg hk]
  rcases lt_trichotomy (get a s.columnKey) (get b s.columnKey) with h | h | h
  · rw [if_neg (ne_of_lt h), if_pos h]
    by_cases hd : s.direction = Direction.asc
    · rw [if_pos hd, if_pos hd]
      constructor
      · intro _; exact le_of_lt h
      · intro _; norm_num
    · rw [if_neg hd, if_neg hd]
      constructor
      · intro hc; norm_num at hc
      · intro hc; exact absurd h (not_lt.mpr hc)
  · rw [if_pos h]
    by_cases hd : s.direction = Direction.asc
    · rw [if_pos hd]
      simp [h.le]
    · rw [if_neg hd]
      simp [h.ge]
  · rw [if_neg (ne_of_gt h), if_neg (lt_asymm h)]
    by_cases hd : s.direction = Direction.asc
    · rw [if_pos hd, if_pos hd]
      constructor
      · intro hc; norm_num at hc
      · intro hc; exact absurd h (not_lt.mpr hc)
    · rw [if_neg hd, if_neg hd]
      constructor
      · intro _; exact le_of_lt h
      · intro _; norm_num

/-- `sortLe` is transitive. -/
theorem sortLe_trans {α β : Type} [LinearOrder β] (get : α → String → β)
    (s : SortState) (a b c : α) (hab : sortLe get s a b = true)
    (hbc : sortLe get s b c = true) : sortLe get s a c = true := by
  by_cases hk : s.columnKey = ""
  · simp [sortLe, rowCompare, hk]
  · rw [sortLe_true_iff get s hk] at hab hbc ⊢
    by_cases hd : s.direction = Direction.asc
    · rw [if_pos hd] at hab hbc ⊢
      exact le_trans hab hbc
    · rw [if_neg hd] at hab hbc ⊢
      exact le_trans hbc hab

/-- `sortLe` is total. -/
theorem sortLe_total {α β : Type} [LinearOrder β] (get : α → String → β)
    (s : SortState) (a b : α) :
    (sortLe get s a b || sortLe get s b a) = true := by
  by_cases hk : s.columnKey = ""
  · simp [sortLe, rowCompare, hk]
  · rw [Bool.or_eq_true, sortLe_true_iff get s hk, sortLe_true_iff get s hk]
    by_cases hd : s.direction = Direction.asc
    · rw [if_pos hd, if_pos hd]
      exact le_total _ _
    · rw [if_neg hd, if_neg hd]
      exact le_total _ _

/-- Two sorted permutations of each other are equal, when the order is
antisymmetric on the members of the first list. -/
theorem eq_of_perm_of_sorted_mem {α : Type} {r : α → α → Prop} {l₁ l₂ : List α}
    (hp : l₁.Perm l₂)
    (hanti : ∀ a ∈ l₁, ∀ b ∈ l₁, r a b → r b a → a = b)
    (hs₁ : l₁.Pairwise r) (hs₂ : l₂.Pairwise r) : l₁ = l₂ := by
  induction l₁ generalizing l₂ with
  | nil => exact List.Perm.nil_eq hp
  | cons a t₁ ih =>
    cases l₂ with
    | nil => exact absurd hp.symm (by simp)
    | cons b t₂ =>
      by_cases hab : a = b
      · subst hab
        have hpt : t₁.Perm t₂ := hp.cons_inv
        have ht₁ := (List.pairwise_cons.mp hs₁).2
        have ht₂ := (List.pairwise_cons.mp hs₂).2
        rw [ih hpt (fun x hx y hy => hanti x (List.mem_cons_of_mem a hx)
          y (List.mem_cons_of_mem a hy)) ht₁ ht₂]
      · have ha₂ : a ∈ b :: t₂ := hp.mem_iff.mp (List.mem_cons_self a t₁)
        have ha₂' : a ∈ t₂ := by
          cases ha₂ with
          | head => exact absurd rfl hab
          | tail _ h => exact h
        have hb₁ : b ∈ a :: t₁ := hp.mem_iff.mpr (List.mem_cons_self b t₂)
        have hb₁' : b ∈ t₁ := by
          cases hb₁ with
          | head => exact absurd rfl (fun h => hab h.symm)
          | tail _ h => exact h
        have hrab : r a b := (List.pairwise_cons.mp hs₁).1 b hb₁'
        have hrba : r b a := (List.pairwise_cons.mp hs₂).1 a ha₂'
        exact absurd (hanti a (List.mem_cons_self a t₁) b
          (List.mem_cons_of_mem a hb₁') hrab hrba) hab

/-! ## C3: the sort comparator and the produced ordering -/

/-- C3: the sorted data is a reordering of the full row set ordered by
comparing the named field between pairs of rows — equal field values compare
equal, ascending direction gives the smaller value a negative comparison
(placing it first) and descending reverses this; with an empty sort column key
the comparator treats every pair as equal. -/
theorem sortedData_comparator_spec {α β : Type} [LinearOrder β]
    (get : α → String → β) (s : SortState) (data : List α) :
    (sortedData get s data).Perm data ∧
    (s.columnKey = "" → ∀ a b : α, rowCompare get s a b = 0) ∧
    (s.columnKey ≠ "" →
      (∀ a b : α, get a s.columnKey = get b s.columnKey →
        rowCompare get s a b = 0) ∧
      (∀ a b : α, get a s.columnKey < get b s.columnKey →
        rowCompare get s a b = (if s.direction = Direction.asc then -1 else 1)) ∧
      (∀ a b : α, get b s.columnKey < get a s.columnKey →
        rowCompare get s a b = (if s.direction = Direction.asc then 1 else -1)) ∧
      (sortedData get s data).Pairwise (fun a b =>
        if s.direction = Direction.asc then get a s.columnKey ≤ get b s.columnKey
        else get b s.columnKey ≤ get a s.columnKey)) := by
  refine ⟨List.mergeSort_perm data _, ?_, ?_⟩
  · intro hk a b
    unfold rowCompare
    rw [if_pos hk]
  · intro hk
    refine ⟨?_, ?_, ?_, ?_⟩
    · intro a b he
      unfold rowCompare
      rw [if_neg hk]
      simp [he]
    · intro a b hlt
      unfold rowCompare
      rw [if_neg hk]
      simp only []
      rw [if_neg (ne_of_lt hlt), if_pos hlt]
      by_cases hd : s.direction = Direction.asc
      · rw [if_pos hd, if_pos hd]; norm_num
      · rw [if_neg hd, if_neg hd]; norm_num
    · intro a b hgt
      unfold rowCompare
      rw [if_neg hk]
      simp only []
      rw [if_neg (ne_of_gt hgt), if_neg (lt_asymm hgt)]
      by_cases hd : s.direction = Direction.asc
      · rw [if_pos hd]; norm_num
      · rw [if_neg hd]; norm_num
    · have hsorted := List.sorted_mergeSort
        (fun a b c => sortLe_trans get s a b c)
        (fun a b => sortLe_total get s a b) data
      exact hsorted.imp (fun hab => (sortLe_true_iff get s hk _ _).mp hab)

/-- C3 witness: in an ascending sort on column `"v"`, the comparator returns
-1 on a concrete smaller-first pair. -/
theorem sortedData_comparator_spec_witness :
    rowCompare exGet { columnKey := "v", direction := Direction.asc } (1 : ℤ) 2
      = -1 := by
  have h := ((sortedData_comparator_spec exGet
      { columnKey := "v", direction := Direction.asc } ([] : List ℤ)).2.2
      (by decide)).2.1 1 2 (by decide)
  simpa using h

/-! ## C4: descending order is the reverse of ascending order -/

/-- C4: on rows whose values in the sort field are pairwise distinct, sorting
descending yields exactly the reverse of sorting ascending. -/
theorem sortedData_desc_reverse_asc {α β : Type} [LinearOrder β]
    (get : α → String → β) (k : String) (data : List α) (hk : k ≠ "")
    (hdist : data.Pairwise (fun a b => get a k ≠ get b k)) :
    sortedData get { columnKey := k, direction := Direction.desc } data
      = (sortedData get { columnKey := k, direction := Direction.asc } data).reverse := by
  have hpermD : (sortedData get { columnKey := k, direction := Direction.desc } data).Perm data :=
    List.mergeSort_perm data _
  have hpermA : (sortedData get { columnKey := k, direction := Direction.asc } data).Perm data :=
    List.mergeSort_perm data _
  have hperm : (sortedData get { columnKey := k, direction := Direction.desc } data).Perm
      (sortedData get { columnKey := k, direction := Direction.asc } data).reverse :=
    hpermD.trans (hpermA.symm.trans (List.reverse_perm _).symm)
  have hsD : (sortedData get { columnKey := k, direction := Direction.desc } data).Pairwise
      (fun a b => get b k ≤ get a k) := by
    have hsorted := List.sorted_mergeSort
      (fun a b c => sortLe_trans get { columnKey := k, direction := Direction.desc } a b c)
      (fun a b => sortLe_total get { columnKey := k, direction := Direction.desc } a b) data
    refine hsorted.imp (fun hab => ?_)
    have h := (sortLe_true_iff get { columnKey := k, direction := Direction.desc } hk _ _).mp hab
    simpa using h
  have hsA : (sortedData get { columnKey := k, direction := Direction.asc } data).Pairwise
      (fun a b => get a k ≤ get b k) := by
    have hsorted := List.sorted_mergeSort
      (fun a b c => sortLe_trans get { columnKey := k, direction := Direction.asc } a b c)
      (fun a b => sortLe_total get { columnKey := k, direction := Direction.asc } a b) data
    refine hsorted.imp (fun hab => ?_)
    have h := (sortLe_true_iff get { columnKey := k, direction := Direction.asc } hk _ _).mp hab
    simpa using h
  have hsArev : ((sortedData get { columnKey := k, direction := Direction.asc } data).reverse).Pairwise
      (fun a b => get b k ≤ get a k) := by
    rw [List.pairwise_reverse]
    exact hsA
  have hdistD : (sortedData get { columnKey := k, direction := Direction.desc } data).Pairwise
      (fun a b => get a k ≠ get b k) :=
    (List.Perm.pairwise_iff (fun h => h.symm) hpermD).mpr hdist
  have hanti : ∀ x ∈ sortedData get { columnKey := k, direction := Direction.desc } data,
      ∀ y ∈ sortedData get { columnKey := k, direction := Direction.desc } data,
      get y k ≤ get x k → get x k ≤ get y k → x = y := by
    intro x hx y hy hxy hyx
    by_contra hne
    exact List.Pairwise.forall (fun u v huv => huv.symm) hdistD hx hy hne
      (le_antisymm hyx hxy)
  exact eq_of_perm_of_sorted_mem hperm hanti hsD hsArev

/-- C4 witness on the distinct-valued rows `[3, 1, 2]`. -/
theorem sortedData_desc_reverse_asc_witness :
    sortedData exGet { columnKey := "v", direction := Direction.desc } ([3, 1, 2] : List ℤ)
      = (sortedData exGet { columnKey := "v", direction := Direction.asc }
          ([3, 1, 2] : List ℤ)).reverse :=
  sortedData_desc_reverse_asc exGet "v" [3, 1, 2] (by decide) (by decide)

/-! ## C5: the pages tile the sorted row set -/

/-- Tiling lemma: `pages` slices of width `pageSize`, taken at offsets
`0, pageSize, 2 * pageSize, ...`, concatenate back to the list whenever the
list fits in `pages` pages. -/
theorem flatMap_range_take_drop {α : Type} (pageSize : ℕ) :
    ∀ (pages : ℕ) (l : List α), l.length ≤ pages * pageSize →
      (List.range pages).flatMap (fun i => (l.drop (i * pageSize)).take pageSize) = l := by
  intro pages
  induction pages with
  | zero =>
    intro l h
    simp only [Nat.zero_mul, Nat.le_zero] at h
    simp [List.length_eq_zero.mp h]
  | succ k ih =>
    intro l h
    rw [List.range_succ_eq_map, List.flatMap_cons, List.flatMap_map]
    have hfun : (fun a => (l.drop (Nat.succ a * pageSize)).take pageSize)
        = fun a => ((l.drop pageSize).drop (a * pageSize)).take pageSize := by
      funext a
      rw [List.drop_drop, Nat.succ_mul, Nat.add_comm]
    have hlen : (l.drop pageSize).length ≤ k * pageSize := by
      rw [List.length_drop]
      rw [Nat.succ_mul] at h
      omega
    calc (l.drop (0 * pageSize)).take pageSize
          ++ (List.range k).flatMap (fun a => (l.drop (Nat.succ a * pageSize)).take pageSize)
        = l.take pageSize
          ++ (List.range k).flatMap (fun a => ((l.drop pageSize).drop (a * pageSize)).take pageSize) := by
          rw [hfun, Nat.zero_mul, List.drop_zero]
      _ = l.take pageSize ++ l.drop pageSize := by rw [ih (l.drop pageSize) hlen]
      _ = l := List.take_append_drop pageSize l

/-- C5: with a positive page size and a fixed sort state, concatenating the
visible slices of pages `1 .. totalPages` in order reproduces the full sorted
row set, each row exactly once. -/
theorem pages_concat_eq_sortedData {α β : Type} [LinearOrder β]
    (get : α → String → β) (s : SortState) (pageSize : ℕ) (data : List α)
    (hps : pageSize ≠ 0) :
    (List.range (totalPages pageSize data.length)).flatMap
        (fun i => visibleData get s pageSize (i + 1) data)
      = sortedData get s data := by
  have hvd : (fun i => visibleData get s pageSize (i + 1) data)
      = fun i => ((sortedData get s data).drop (i * pageSize)).take pageSize := by
    funext i
    unfold visibleData jsSlice endRowIndex startRowIndex
    rw [if_pos hps, if_pos hps, Nat.add_sub_cancel_left, Nat.add_sub_cancel]
  rw [hvd]
  apply flatMap_range_take_drop
  rw [sortedData_length get s data]
  exact le_totalPages_mul pageSize data.length hps

/-- C5 witness at `pageSize = 2` on a three-row list. -/
theorem pages_concat_eq_sortedData_witness :
    (List.range (totalPages 2 ([5, 1, 4] : List ℤ).length)).flatMap
        (fun i => visibleData exGet { columnKey := "", direction := Direction.asc }
          2 (i + 1) [5, 1, 4])
      = sortedData exGet { columnKey := "", direction := Direction.asc } [5, 1, 4] :=
  pages_concat_eq_sortedData exGet _ 2 [5, 1, 4] (by decide)

/-! ## C6: the column partition -/

/-- For a column of the list, membership in the left-fixed group read through
`includes` is exactly the `fixed === "left"` test. -/
theorem contains_fixedLeft (columns : List TableColumn) (c : TableColumn)
    (hc : c ∈ columns) :
    (fixedLeftColumns columns).contains c = (c.fixed == some FixedSide.left) := by
  by_cases h : c.fixed = some FixedSide.left
  · have hmem : c ∈ fixedLeftColumns columns :=
      List.mem_filter.mpr ⟨hc, by simp [h]⟩
    have ht : (fixedLeftColumns columns).contains c = true := List.elem_iff.mpr hmem
    rw [ht]
    simp [h]
  · have hnm : c ∉ fixedLeftColumns columns := fun hmem =>
      h (by simpa using (List.mem_filter.mp hmem).2)
    have hf : (fixedLeftColumns columns).contains c = false := by
      have := mt List.elem_iff.mp hnm
      rwa [Bool.not_eq_true] at this
    rw [hf]
    simp [h]

/-- For a column of the list, membership in the right-fixed group read through
`includes` is exactly the `fixed === "right"` test. -/
theorem contains_fixedRight (columns : List TableColumn) (c : TableColumn)
    (hc : c ∈ columns) :
    (fixedRightColumns columns).contains c = (c.fixed == some FixedSide.right) := by
  by_cases h : c.fixed = some FixedSide.right
  · have hmem : c ∈ fixedRightColumns columns := by
      unfold fixedRightColumns
      rw [List.mem_reverse]
      exact List.mem_filter.mpr ⟨hc, by simp [h]⟩
    have ht : (fixedRightColumns columns).contains c = true := List.elem_iff.mpr hmem
    rw [ht]
    simp [h]
  · have hnm : c ∉ fixedRightColumns columns := fun hmem => by
      rw [fixedRightColumns, List.mem_reverse] at hmem
      exact h (by simpa using (List.mem_filter.mp hmem).2)
    have hf : (fixedRightColumns columns).contains c = false := by
      have := mt List.elem_iff.mp hnm
      rwa [Bool.not_eq_true] at this
    rw [hf]
    simp [h]

/-- The unfixed group is the columns fixed to neither side. -/
theorem nofixedColumns_eq_filter (columns : List TableColumn) :
    nofixedColumns columns
      = columns.filter (fun c =>
          !(c.fixed == some FixedSide.left) && !(c.fixed == some FixedSide.right)) := by
  unfold nofixedColumns
  apply List.filter_congr
  intro c hc
  rw [contains_fixedLeft columns c hc, contains_fixedRight columns c hc]

/-- C6: the three column groups are pairwise disjoint, each preserves the
original relative order of its members (the right-fixed group before its
reversal), and `leftFixed ++ unfixed ++ rightFixedReversed` is a permutation
of the original column list — every column exactly once. -/
theorem columns_partition_spec (columns : List TableColumn) :
    (∀ c ∈ fixedLeftColumns columns, c ∉ fixedRightColumns columns) ∧
    (∀ c ∈ fixedLeftColumns columns, c ∉ nofixedColumns columns) ∧
    (∀ c ∈ fixedRightColumns columns, c ∉ nofixedColumns columns) ∧
    (fixedLeftColumns columns).Sublist columns ∧
    (nofixedColumns columns).Sublist columns ∧
    ((fixedRightColumns columns).reverse).Sublist columns ∧
    (fixedLeftColumns columns ++ nofixedColumns columns ++ fixedRightColumns columns).Perm
      columns := by
  have hmemL : ∀ c, c ∈ fixedLeftColumns columns ↔
      c ∈ columns ∧ c.fixed = some FixedSide.left := by
    intro c
    rw [fixedLeftColumns, List.mem_filter]
    simp
  have hmemR : ∀ c, c ∈ fixedRightColumns columns ↔
      c ∈ columns ∧ c.fixed = some FixedSide.right := by
    intro c
    rw [fixedRightColumns, List.mem_reverse, List.mem_filter]
    simp
  have hmemN : ∀ c, c ∈ nofixedColumns columns ↔
      c ∈ columns ∧ (c.fixed ≠ some FixedSide.left ∧ c.fixed ≠ some FixedSide.right) := by
    intro c
    rw [nofixedColumns_eq_filter, List.mem_filter]
    simp
  refine ⟨?_, ?_, ?_, ?_, ?_, ?_, ?_⟩
  · intro c hcl hcr
    exact absurd (((hmemR c).mp hcr).2.symm.trans ((hmemL c).mp hcl).2) (by simp)
  · intro c hcl hcn
    exact ((hmemN c).mp hcn).2.1 ((hmemL c).mp hcl).2
  · intro c hcr hcn
    exact ((hmemN c).mp hcn).2.2 ((hmemR c).mp hcr).2
  · exact List.filter_sublist columns
  · rw [nofixedColumns_eq_filter]
    exact List.filter_sublist columns
  · rw [fixedRightColumns, List.reverse_reverse]
    exact List.filter_sublist columns
  · rw [List.perm_iff_count]
    intro c
    rw [List.count_append, List.count_append, nofixedColumns_eq_filter,
      fixedRightColumns, List.count_reverse, fixedLeftColumns]
    have hL : c.fixed ≠ some FixedSide.left →
        List.count c (List.filter (fun column =>
          column.fixed == some FixedSide.left) columns) = 0 := fun h =>
      List.count_eq_zero.mpr (fun hmem =>
        h (by simpa using (List.mem_filter.mp hmem).2))
    have hR : c.fixed ≠ some FixedSide.right →
        List.count c (List.filter (fun column =>
          column.fixed == some FixedSide.right) columns) = 0 := fun h =>
      List.count_eq_zero.mpr (fun hmem =>
        h (by simpa using (List.mem_filter.mp hmem).2))
    have hN : c.fixed = some FixedSide.left ∨ c.fixed = some FixedSide.right →
        List.count c (List.filter (fun c' =>
          !(c'.fixed == some FixedSide.left) &&
          !(c'.fixed == some FixedSide.right)) columns) = 0 := by
      intro h
      refine List.count_eq_zero.mpr (fun hmem => ?_)
      have h2 := (List.mem_filter.mp hmem).2
      rcases h with h | h <;> simp [h] at h2
    rcases hfix : c.fixed with _ | side
    · rw [hL (by simp [hfix]), hR (by simp [hfix]),
        List.count_filter (by simp [hfix])]
      omega
    · cases side
      · rw [List.count_filter (by simp [hfix]), hN (Or.inl hfix),
          hR (by simp [hfix])]
        omega
      · rw [hL (by simp [hfix]), hN (Or.inr hfix),
          List.count_filter (by simp [hfix])]
        omega

/-- C6 witness on the demo schema: the left-fixed `ID` column is not in the
right-fixed group. -/
theorem columns_partition_spec_witness :
    ({ key := "id", title := "ID", sortable := false,
       fixed := some FixedSide.left, width := some 100 } : TableColumn)
      ∉ fixedRightColumns exColumns :=
  (columns_partition_spec exColumns).1 _ (by decide)

/-! ## C9: a page beyond the data renders no rows -/

/-- C9: with a positive page size, whenever `(currentPage - 1) * pageSize`
reaches or passes the row count the visible slice is empty and the table body
renders zero rows. -/
theorem visibleData_overflow_empty {α β : Type} [LinearOrder β]
    (get : α → String → β) (s : SortState) (columns : List TableColumn)
    (pageSize currentPage : ℕ) (data : List α) (hps : pageSize ≠ 0)
    (hover : data.length ≤ (currentPage - 1) * pageSize) :
    visibleData get s pageSize currentPage data = [] ∧
    tableBody get s columns pageSize currentPage data = [] := by
  have hvd : visibleData get s pageSize currentPage data = [] := by
    unfold visibleData jsSlice endRowIndex startRowIndex
    rw [if_pos hps, if_pos hps]
    rw [List.drop_eq_nil_of_le (by rw [sortedData_length get s data]; exact hover)]
    exact List.take_nil
  refine ⟨hvd, ?_⟩
  unfold tableBody
  rw [hvd]
  rfl

/-- C9 witness: three rows, `pageSize = 10`, `currentPage = 3`. -/
theorem visibleData_overflow_empty_witness :
    visibleData exGet { columnKey := "", direction := Direction.asc } 10 3
        ([1, 2, 3] : List ℤ) = [] ∧
    tableBody exGet { columnKey := "", direction := Direction.asc } [] 10 3
        ([1, 2, 3] : List ℤ) = [] :=
  visibleData_overflow_empty exGet _ [] 10 3 [1, 2, 3] (by decide) (by decide)
